import Mathlib

/-!
Verification of the notes-app state manager (src/scripted.js).

We shallowly embed the note data model, the storage sanitization
(loadFromStorage), the repository operations (createNewNote,
saveActiveNote, deleteActiveNote, openNote, init) and the debounced
autosave scheduler (scheduleAutosave), and prove the specified
properties about them.  Timestamps are epoch milliseconds, modelled as
integers; the injected clock value Date.now() is passed explicitly.
-/

namespace NotesApp

/-- A JSON value, as produced by JSON.parse. -/
inductive JVal where
  | jnull : JVal
  | jbool : Bool → JVal
  | jnum : Int → JVal
  | jstr : String → JVal
  | jarr : List JVal → JVal
  | jobj : List (String × JVal) → JVal

/-- Property access `v.k` on a parsed JSON value: only objects carry
named fields; on every other value the access yields undefined
(`none`).  In particular `null` and primitives never have a field. -/
def JVal.getField : JVal → String → Option JVal
  | .jobj fs, k => fs.lookup k
  | _, _ => none

/-- A note held in memory: an element of the module state `notes` of
src/scripted.js (line 25). -/
structure Note where
  id : String
  title : String
  content : String
  createdAt : Int
  updatedAt : Int
deriving Repr, DecidableEq

/-- The outcome of reading and JSON-parsing the stored blob under
STORAGE_KEY: the key is missing (or holds a falsy string), the payload
fails to parse (JSON.parse throws), or it parses to a JSON value. -/
inductive Payload where
  | missing : Payload
  | malformed : Payload
  | parsed : JVal → Payload

/-- The filter `(n) => n && typeof n.id === "string"` of
loadFromStorage (src/scripted.js:86): a record passes iff it is an
object whose `id` property is a string (all other parsed values either
are falsy or lack the property). -/
def keepRecord (v : JVal) : Bool :=
  match v.getField "id" with
  | some (.jstr _) => true
  | _ => false

/-- The map step of the sanitizer (src/scripted.js:87-93):
`String(n.id)` (already a string for kept records), string-typed
`title`/`content` kept and otherwise defaulted to the empty string,
numeric `createdAt`/`updatedAt` kept and otherwise defaulted to
`Date.now()` (the parameter `now`). -/
def sanitizeRecord (v : JVal) (now : Int) : Note :=
  { id := match v.getField "id" with
          | some (.jstr s) => s
          | _ => ""
    title := match v.getField "title" with
             | some (.jstr s) => s
             | _ => ""
    content := match v.getField "content" with
               | some (.jstr s) => s
               | _ => ""
    createdAt := match v.getField "createdAt" with
                 | some (.jnum k) => k
                 | _ => now
    updatedAt := match v.getField "updatedAt" with
                 | some (.jnum k) => k
                 | _ => now }

/-- Function loadFromStorage (src/scripted.js:78-97): a missing key, a parse
failure and a non-array payload all yield the empty list; an array is
filtered to the records with a string `id` and each survivor is
sanitized with the clock reading `now`. -/
def loadFromStorage (p : Payload) (now : Int) : List Note :=
  match p with
  | .missing => []
  | .malformed => []
  | .parsed (.jarr xs) => (xs.filter keepRecord).map (fun v => sanitizeRecord v now)
  | .parsed _ => []

/-- The sort comparator `(a, b) => b.updatedAt - a.updatedAt`
(src/scripted.js:74): `a` sorts no later than `b` iff
`a.updatedAt ≥ b.updatedAt`. -/
def noteLe (a b : Note) : Bool := b.updatedAt ≤ a.updatedAt

/-- Function sortNotesByUpdatedAtDesc (src/scripted.js:73-75): sort the
collection by `updatedAt` descending. -/
def sortNotesByUpdatedAtDesc (ns : List Note) : List Note :=
  ns.mergeSort noteLe

/-- The JSON encoding of one note, as written by `JSON.stringify` in
saveToStorage. -/
def encodeNote (n : Note) : JVal :=
  .jobj [("id", .jstr n.id), ("title", .jstr n.title),
         ("content", .jstr n.content), ("createdAt", .jnum n.createdAt),
         ("updatedAt", .jnum n.updatedAt)]

/-- The serialized blob `JSON.stringify(notes)`, described by the
payload a later parse recovers from it. -/
def encodeNotes (ns : List Note) : Payload :=
  .parsed (.jarr (ns.map encodeNote))

/-- The module state of src/scripted.js: the in-memory collection
`notes` (line 25), the active selection `activeNoteId` (line 27), and
the persisted blob stored under STORAGE_KEY. -/
structure AppState where
  notes : List Note
  activeNoteId : Option String
  storage : Payload

/-- Function getActiveNote (src/scripted.js:69-71): the first note whose id
equals `activeNoteId`, or nothing (also when the selection is null). -/
def getActiveNote (s : AppState) : Option Note :=
  match s.activeNoteId with
  | none => none
  | some aid => s.notes.find? (fun n => n.id == aid)

/-- Function saveToStorage (src/scripted.js:99-101): overwrite the stored
blob with the serialized current collection. -/
def saveToStorage (s : AppState) : AppState :=
  { s with storage := encodeNotes s.notes }

/-- The state effect of `renderNotesList` (src/scripted.js:104-148):
the collection is sorted in place (line 105) before the entries are
rendered; the DOM output itself is outside the model. -/
def renderNotesList (s : AppState) : AppState :=
  { s with notes := sortNotesByUpdatedAtDesc s.notes }

/-- In-place mutation of the first note matching `aid`: the object
returned by `notes.find` is aliased into the array, so assigning to
its fields updates that single element. -/
def updateFirst (aid : String) (f : Note → Note) : List Note → List Note
  | [] => []
  | n :: ns => if n.id == aid then f n :: ns else n :: updateFirst aid f ns

/-- Function createNewNote (src/scripted.js:173-191): a fresh note with empty
title/content and both timestamps `now` is unshifted onto `notes` and
selected; the collection is persisted and the list re-rendered
(sorted).  `newId` is the value returned by `generateId()`. -/
def createNewNote (s : AppState) (newId : String) (now : Int) : AppState :=
  let newNote : Note :=
    { id := newId, title := "", content := "", createdAt := now, updatedAt := now }
  renderNotesList (saveToStorage
    { s with notes := newNote :: s.notes, activeNoteId := some newId })

/-- Function openNote (src/scripted.js:193-200): select an existing id and
re-render; ids not present are ignored. -/
def openNote (s : AppState) (id : String) : AppState :=
  if s.notes.any (fun n => n.id == id) then
    renderNotesList { s with activeNoteId := some id }
  else s

/-- Function saveActiveNote (src/scripted.js:202-212): if there is no active
note, return with no effect; otherwise set the active note's
`title`/`content` from the two inputs, stamp `updatedAt = Date.now()`,
persist, and re-render the list.  `titleVal`/`contentVal` are the
current input values and `now` is the clock reading. -/
def saveActiveNote (s : AppState) (titleVal contentVal : String) (now : Int) : AppState :=
  match s.activeNoteId with
  | none => s
  | some aid =>
    if (s.notes.find? (fun n => n.id == aid)).isSome then
      let notes1 := updateFirst aid
        (fun n => { n with title := titleVal, content := contentVal, updatedAt := now })
        s.notes
      renderNotesList (saveToStorage { s with notes := notes1 })
    else s

/-- Function deleteActiveNote (src/scripted.js:214-229): return with no
effect when there is no active note or when the confirmation dialog is
declined (`ok = false`); otherwise remove every note whose id is the
active id, recompute the selection as the head of the survivors (null
when none remain), persist, and re-render. -/
def deleteActiveNote (s : AppState) (ok : Bool) : AppState :=
  if (getActiveNote s).isSome then
    if ok then
      match s.activeNoteId with
      | some aid =>
        let survivors := s.notes.filter (fun n => n.id != aid)
        renderNotesList (saveToStorage
          { s with notes := survivors, activeNoteId := survivors.head?.map Note.id })
      | none => s
    else s
  else s

/-- Function init (src/scripted.js:240-248): load and sanitize the stored
payload, sort, select the head note (or nothing when empty), and
render.  Init never writes the storage. -/
def initApp (p : Payload) (now : Int) : AppState :=
  let ns := sortNotesByUpdatedAtDesc (loadFromStorage p now)
  { notes := ns, activeNoteId := ns.head?.map Note.id, storage := p }

/-- A user-driven operation on the app state: the create button, a
save (button, Ctrl+S, or the autosave timer firing), the delete button
together with the confirmation outcome, clicking a list entry, and a
page reload (init reading the current storage). -/
inductive Op where
  | create (newId : String) (now : Int)
  | save (titleVal contentVal : String) (now : Int)
  | delete (ok : Bool)
  | openNote (id : String)
  | reload (now : Int)

/-- One operation applied to the state. -/
def stepOp (s : AppState) : Op → AppState
  | .create newId now => createNewNote s newId now
  | .save t c now => saveActiveNote s t c now
  | .delete ok => deleteActiveNote s ok
  | .openNote id => openNote s id
  | .reload now => initApp s.storage now

/-- The states reachable from startup by any sequence of operations. -/
inductive Reachable : AppState → Prop where
  | start (p : Payload) (now : Int) : Reachable (initApp p now)
  | next {s : AppState} (hs : Reachable s) (op : Op) : Reachable (stepOp s op)

/-! ## The autosave scheduler (src/scripted.js:29, 231-237, 250-279)

The timer world is modelled by discrete events at integer times.  The
scheduler state is the single timer slot `autosaveTimer` (here the
armed deadline, if any) together with the two input fields, which the
save callback reads at the moment it runs. -/

/-- The scheduler state: the current values of the title and content
inputs, and the armed deadline of `autosaveTimer` if a timer is
pending (`none` means the scheduler is idle). -/
structure Sched where
  titleVal : String
  contentVal : String
  pending : Option Int
deriving Repr, DecidableEq

/-- An event relevant to the scheduler: an input event at time `t`
(after which the fields hold the given values; the handler calls
`scheduleAutosave`, src/scripted.js:255-267), or an explicit save at
time `t` (save button or Ctrl+S, which call `saveActiveNote`
directly, src/scripted.js:252 and 270-279). -/
inductive SchedEv where
  | edit (t : Int) (titleVal contentVal : String)
  | explicitSave (t : Int)
deriving Repr, DecidableEq

/-- If the armed timer's deadline has been reached by time `t`, it has
fired: `saveActiveNote` ran at the deadline, reading the inputs as
they stood then, and the timer slot emptied.  Returns the resulting
scheduler state and the saves that executed (time, title read,
content read). -/
def fireDue (st : Sched) (t : Int) : Sched × List (Int × String × String) :=
  match st.pending with
  | some d =>
    if d ≤ t then ({ st with pending := none }, [(d, st.titleVal, st.contentVal)])
    else (st, [])
  | none => (st, [])

/-- Run the event-driven system from scheduler state `st` over a
time-ordered list of events, returning every save that executes, in
order.  `scheduleAutosave` (src/scripted.js:231-237) clears any armed
timer and arms a new one for `t + 350`; an explicit save runs
`saveActiveNote` synchronously and leaves the timer slot untouched; a
timer still armed after the last event fires at its deadline. -/
def runSched (st : Sched) : List SchedEv → List (Int × String × String)
  | [] =>
    match st.pending with
    | some d => [(d, st.titleVal, st.contentVal)]
    | none => []
  | .edit t ti co :: evs =>
    (fireDue st t).2 ++
      runSched { titleVal := ti, contentVal := co, pending := some (t + 350) } evs
  | .explicitSave t :: evs =>
    (fireDue st t).2 ++ (t, st.titleVal, st.contentVal) :: runSched (fireDue st t).1 evs

/-- The scheduler state after processing the events (the same run as
`runSched`). -/
def runSchedState (st : Sched) : List SchedEv → Sched
  | [] => st
  | .edit t ti co :: evs =>
    runSchedState { titleVal := ti, contentVal := co, pending := some (t + 350) } evs
  | .explicitSave t :: evs => runSchedState (fireDue st t).1 evs

/-- A burst of input events, given as (time, title value, content
value) triples. -/
def editsToEvents (calls : List (Int × String × String)) : List SchedEv :=
  calls.map (fun e => SchedEv.edit e.1 e.2.1 e.2.2)

/-- A raw record whose `createdAt` and `updatedAt` are both
number-typed, so that sanitization never consults the clock for it. -/
def wellTimestamped (v : JVal) : Bool :=
  (match v.getField "createdAt" with
   | some (.jnum _) => true
   | _ => false) &&
  (match v.getField "updatedAt" with
   | some (.jnum _) => true
   | _ => false)

/-! ## Concrete fixtures used by witnesses -/

/-- A sample note. -/
def note_a : Note := { id := "a", title := "A", content := "ca", createdAt := 10, updatedAt := 30 }

/-- A second sample note, older than `note_a`. -/
def note_b : Note := { id := "b", title := "B", content := "cb", createdAt := 5, updatedAt := 20 }

/-- A sample state: two notes sorted by `updatedAt` descending, the
newer one active. -/
def sampleState : AppState :=
  { notes := [note_a, note_b], activeNoteId := some "a", storage := Payload.missing }

/-- The stored payload of the concrete scenario in the specification:
a record with only an id, a malformed record, and a record with id,
title and a numeric `updatedAt`. -/
def samplePayload : Payload :=
  .parsed (.jarr
    [.jobj [("id", .jstr "x")],
     .jobj [("foo", .jnum 1)],
     .jobj [("id", .jstr "y"), ("title", .jstr "T"), ("updatedAt", .jnum 5)]])

/-- The value a JS function call evaluates to: a body that ends
without a return statement, or a bare `return;`, yields undefined. -/
inductive JSValue where
  | undefined : JSValue
  | str : String → JSValue
deriving Repr, DecidableEq

/-- The value returned by a call to createNewNote
(src/scripted.js:173-191): the body has no return statement, so every
call evaluates to undefined — in particular, never to the new id,
which is only bound to `activeNoteId` (line 184). -/
def createNewNoteRet (s : AppState) (newId : String) (now : Int) : JSValue :=
  JSValue.undefined

/-- The value returned by a call to saveActiveNote
(src/scripted.js:202-212): the early return at line 204 is bare and
the body otherwise falls off the end, so every call — with the active
id absent or present — evaluates to undefined. -/
def saveActiveNoteRet (s : AppState) (titleVal contentVal : String) (now : Int) : JSValue :=
  JSValue.undefined

/-- A sample state whose active id "z" is absent from the collection
(a stale selection). -/
def staleState : AppState :=
  { notes := [note_a, note_b], activeNoteId := some "z", storage := Payload.missing }

/-! ## General lemmas about the sort order -/

theorem noteLe_trans (a b c : Note) : noteLe a b → noteLe b c → noteLe a c := by
  simp only [noteLe, decide_eq_true_eq]
  omega

theorem noteLe_total (a b : Note) : noteLe a b || noteLe b a := by
  simp only [noteLe, Bool.or_eq_true, decide_eq_true_eq]
  omega

theorem sorted_sortNotes (ns : List Note) :
    (sortNotesByUpdatedAtDesc ns).Pairwise (fun a b => noteLe a b) :=
  List.sorted_mergeSort noteLe_trans noteLe_total ns

theorem pairwise_notes_renderNotesList (s : AppState) :
    (renderNotesList s).notes.Pairwise (fun a b => noteLe a b) :=
  sorted_sortNotes s.notes

theorem pairwise_notes_initApp (p : Payload) (now : Int) :
    (initApp p now).notes.Pairwise (fun a b => noteLe a b) :=
  sorted_sortNotes _

/-- Every operation leaves the in-memory collection sorted by
`updatedAt` descending: any state reachable from startup satisfies the
ordering invariant. -/
theorem reachable_sorted {s : AppState} (hs : Reachable s) :
    s.notes.Pairwise (fun a b => noteLe a b) := by
  induction hs with
  | start p now => exact pairwise_notes_initApp p now
  | next hs op ih =>
    cases op with
    | create newId now => exact pairwise_notes_renderNotesList _
    | save t c now =>
      simp only [stepOp, saveActiveNote]
      split
      · exact ih
      · split
        · exact pairwise_notes_renderNotesList _
        · exact ih
    | delete ok =>
      simp only [stepOp, deleteActiveNote]
      split
      · split
        · split
          · exact pairwise_notes_renderNotesList _
          · exact ih
        · exact ih
      · exact ih
    | openNote id =>
      simp only [stepOp, openNote]
      split
      · exact pairwise_notes_renderNotesList _
      · exact ih
    | reload now => exact pairwise_notes_initApp _ _

/-! ## Claims -/

/-- C10: when a delete is requested on the active note and the
confirmation collaborator returns false, nothing changes: the
in-memory collection, the active selection and the persisted blob are
all exactly as before the request. -/
theorem c10_declined_delete_changes_nothing (s : AppState) (note : Note)
    (hactive : getActiveNote s = some note) :
    deleteActiveNote s false = s := by
  unfold deleteActiveNote
  rw [hactive]
  simp

theorem c10_witness : deleteActiveNote sampleState false = sampleState :=
  c10_declined_delete_changes_nothing sampleState note_a (by decide)

/-- C8 counterexample: a call to createNewNote evaluates to undefined
(the body, src/scripted.js:173-191, has no return statement), not to
the new note's id — contrary to the claim's "returns the new note's
id".  The id is only bound to the active selection. -/
theorem c8_cex :
    createNewNoteRet sampleState "n1" 50 ≠ JSValue.str "n1" ∧
    createNewNoteRet sampleState "n1" 50 = JSValue.undefined := by
  decide

/-- C8 (amended): createNewNote constructs a note whose createdAt and
updatedAt both equal the current time and whose title and content are
empty, inserts it at the head of the in-memory collection (the
persisted blob is exactly that head-insertion), and binds the active
selection to the new note's id; the call itself returns undefined
rather than the id.  The in-memory collection afterwards holds the new
note together with all previous ones (the render then re-sorts it in
place). -/
theorem c8_create_note (s : AppState) (newId : String) (now : Int) :
    (createNewNote s newId now).storage
        = encodeNotes ({ id := newId, title := "", content := "", createdAt := now,
                         updatedAt := now } :: s.notes) ∧
    (createNewNote s newId now).activeNoteId = some newId ∧
    (createNewNote s newId now).notes.Perm
        ({ id := newId, title := "", content := "", createdAt := now,
           updatedAt := now } :: s.notes) ∧
    createNewNoteRet s newId now = JSValue.undefined :=
  ⟨rfl, rfl, List.mergeSort_perm _ _, rfl⟩

/-- A burst of edits in which each event arrives strictly before the
previously armed deadline cancels that timer each time, so only the
last edit's timer survives and fires. -/
theorem runSched_edits (e : Int × String × String)
    (rest : List (Int × String × String)) (st : Sched)
    (hgaps : (e :: rest).Chain' (fun x y => x.1 < y.1 ∧ y.1 < x.1 + 350))
    (hpend : ∀ d, st.pending = some d → e.1 < d) :
    runSched st (editsToEvents (e :: rest))
      = [(((e :: rest).getLast (List.cons_ne_nil e rest)).1 + 350,
          ((e :: rest).getLast (List.cons_ne_nil e rest)).2.1,
          ((e :: rest).getLast (List.cons_ne_nil e rest)).2.2)] := by
  induction rest generalizing e st with
  | nil =>
    have hfire : (fireDue st e.1).2 = [] := by
      unfold fireDue
      cases hp : st.pending with
      | none => rfl
      | some d =>
        have hlt : e.1 < d := hpend d hp
        simp only [if_neg (by omega : ¬ d ≤ e.1)]
    show (fireDue st e.1).2 ++
        runSched { titleVal := e.2.1, contentVal := e.2.2, pending := some (e.1 + 350) }
          (editsToEvents []) = _
    rw [hfire]
    rfl
  | cons f rest2 ih =>
    have hfire : (fireDue st e.1).2 = [] := by
      unfold fireDue
      cases hp : st.pending with
      | none => rfl
      | some d =>
        have hlt : e.1 < d := hpend d hp
        simp only [if_neg (by omega : ¬ d ≤ e.1)]
    have hR : e.1 < f.1 ∧ f.1 < e.1 + 350 := (List.chain'_cons.mp hgaps).1
    have hgaps2 : (f :: rest2).Chain' (fun x y => x.1 < y.1 ∧ y.1 < x.1 + 350) :=
      (List.chain'_cons.mp hgaps).2
    have hpend2 : ∀ d,
        (Sched.mk e.2.1 e.2.2 (some (e.1 + 350))).pending = some d → f.1 < d := by
      intro d hd
      have : e.1 + 350 = d := by
        simpa using hd
      omega
    show (fireDue st e.1).2 ++
        runSched { titleVal := e.2.1, contentVal := e.2.2, pending := some (e.1 + 350) }
          (editsToEvents (f :: rest2)) = _
    rw [hfire, List.nil_append,
      ih f { titleVal := e.2.1, contentVal := e.2.2, pending := some (e.1 + 350) }
        hgaps2 hpend2]
    rw [List.getLast_cons (List.cons_ne_nil f rest2)]

/-- C3: starting idle, a burst of N ≥ 1 input events in which every
event arrives less than the 350 ms debounce delay after the previous
one triggers exactly one save, executed 350 ms after the last event
and reading the values staged at the last event; each scheduleAutosave
clears the previously armed timer (the single slot `autosaveTimer`)
before arming a new one, so at most one timer is ever outstanding. -/
theorem c3_debounced_burst_single_save (calls : List (Int × String × String))
    (ti0 co0 : String) (hne : calls ≠ [])
    (hgaps : calls.Chain' (fun x y => x.1 < y.1 ∧ y.1 < x.1 + 350)) :
    runSched { titleVal := ti0, contentVal := co0, pending := none } (editsToEvents calls)
      = [((calls.getLast hne).1 + 350, (calls.getLast hne).2.1,
          (calls.getLast hne).2.2)] := by
  cases calls with
  | nil => exact absurd rfl hne
  | cons e rest => exact runSched_edits e rest _ hgaps (fun d h => Option.noConfusion h)

theorem c3_witness :
    runSched { titleVal := "", contentVal := "", pending := none }
      (editsToEvents [(0, "a", "b"), (100, "c", "d"), (399, "e", "f")])
      = [(749, "e", "f")] := by
  have h := c3_debounced_burst_single_save [(0, "a", "b"), (100, "c", "d"), (399, "e", "f")]
    "" "" (by decide) (by norm_num [List.chain'_cons])
  exact h.trans (by decide)

/-- C4 counterexample: with an autosave armed by an edit at time 0, an
explicit save at time 100 runs a save synchronously but leaves the
timer armed (the scheduler is not idle afterwards), and the pending
autosave still fires at time 350, so an additional autosave does fire
after the explicit save — contrary to the claim. -/
theorem c4_cex :
    runSched { titleVal := "", contentVal := "", pending := none }
        [SchedEv.edit 0 "A" "B", SchedEv.explicitSave 100]
      = [(100, "A", "B"), (350, "A", "B")] ∧
    (runSchedState { titleVal := "", contentVal := "", pending := none }
        [SchedEv.edit 0 "A" "B", SchedEv.explicitSave 100]).pending = some 350 :=
  ⟨rfl, rfl⟩

/-- C4 (amended): an explicit save (save button or Ctrl+S) invokes
the save synchronously but does not cancel a pending autosave timer
and does not leave the scheduler idle: an autosave armed by an edit
before the explicit save is still pending afterwards and fires 350 ms
after that edit, performing an additional save with the same staged
values. -/
theorem c4_explicit_save_keeps_timer (t0 t1 : Int) (ti co ti0 co0 : String)
    (h0 : t0 ≤ t1) (h1 : t1 < t0 + 350) :
    runSched { titleVal := ti0, contentVal := co0, pending := none }
        [SchedEv.edit t0 ti co, SchedEv.explicitSave t1]
      = [(t1, ti, co), (t0 + 350, ti, co)] ∧
    (runSchedState { titleVal := ti0, contentVal := co0, pending := none }
        [SchedEv.edit t0 ti co, SchedEv.explicitSave t1]).pending
      = some (t0 + 350) := by
  have hn : ¬ (t0 + 350 ≤ t1) := by omega
  constructor
  · simp [runSched, fireDue, hn]
  · simp [runSchedState, fireDue, hn]

theorem c4_witness :
    runSched { titleVal := "x", contentVal := "y", pending := none }
        [SchedEv.edit 0 "A" "B", SchedEv.explicitSave 100]
      = [(100, "A", "B"), (350, "A", "B")] ∧
    (runSchedState { titleVal := "x", contentVal := "y", pending := none }
        [SchedEv.edit 0 "A" "B", SchedEv.explicitSave 100]).pending = some 350 :=
  c4_explicit_save_keeps_timer 0 100 "A" "B" "x" "y" (by decide) (by decide)

/-- The sanitizing pass of loadFromStorage, fused into one traversal. -/
theorem loadFromStorage_filterMap (xs : List JVal) (now : Int) :
    loadFromStorage (.parsed (.jarr xs)) now
      = xs.filterMap (fun v =>
          if keepRecord v then some (sanitizeRecord v now) else none) := by
  show (xs.filter keepRecord).map (fun v => sanitizeRecord v now) = _
  induction xs with
  | nil => rfl
  | cons v vs ih =>
    cases hk : keepRecord v with
    | false =>
      rw [List.filter_cons_of_neg (by simp [hk]),
        List.filterMap_cons_none (by simp [hk]), ih]
    | true =>
      rw [List.filter_cons_of_pos (by simp [hk]), List.map_cons, List.filterMap_cons, ih]
      simp [hk]

/-- Pointwise form of the sanitizer: keep-and-sanitize agrees with a
single match on the record's id field. -/
theorem keep_sanitize_eq (v : JVal) (now : Int) :
    (if keepRecord v then some (sanitizeRecord v now) else none)
      = (match v.getField "id" with
         | some (.jstr i) =>
           some { id := i
                  title := match v.getField "title" with
                           | some (.jstr s) => s
                           | _ => ""
                  content := match v.getField "content" with
                             | some (.jstr s) => s
                             | _ => ""
                  createdAt := match v.getField "createdAt" with
                               | some (.jnum k) => k
                               | _ => now
                  updatedAt := match v.getField "updatedAt" with
                               | some (.jnum k) => k
                               | _ => now }
         | _ => none) := by
  unfold keepRecord sanitizeRecord
  cases hid : v.getField "id" with
  | none => simp [hid]
  | some w => cases w <;> simp [hid]

/-- C1: loadFromStorage returns the empty list when the storage key is
missing, when the payload fails to parse, and when the parsed value is
not an array; on an array it returns the input records with every
record lacking a string id discarded, title and content replaced by
the empty string when not string-typed, and createdAt and updatedAt
replaced by the current time when not numeric. -/
theorem c1_load_sanitizes (now : Int) :
    loadFromStorage .missing now = [] ∧
    loadFromStorage .malformed now = [] ∧
    (∀ v : JVal, (∀ xs, v ≠ .jarr xs) → loadFromStorage (.parsed v) now = []) ∧
    (∀ xs : List JVal,
      loadFromStorage (.parsed (.jarr xs)) now
        = xs.filterMap (fun v =>
            match v.getField "id" with
            | some (.jstr i) =>
              some { id := i
                     title := match v.getField "title" with
                              | some (.jstr s) => s
                              | _ => ""
                     content := match v.getField "content" with
                                | some (.jstr s) => s
                                | _ => ""
                     createdAt := match v.getField "createdAt" with
                                  | some (.jnum k) => k
                                  | _ => now
                     updatedAt := match v.getField "updatedAt" with
                                  | some (.jnum k) => k
                                  | _ => now }
            | _ => none)) := by
  refine ⟨rfl, rfl, ?_, ?_⟩
  · intro v hv
    cases v with
    | jarr xs => exact absurd rfl (hv xs)
    | jnull => rfl
    | jbool b => rfl
    | jnum n => rfl
    | jstr s => rfl
    | jobj fs => rfl
  · intro xs
    rw [loadFromStorage_filterMap]
    exact congrArg (fun f => xs.filterMap f) (funext (fun v => keep_sanitize_eq v now))

theorem c1_witness :
    loadFromStorage (.parsed (.jnum 7)) 42 = [] ∧
    loadFromStorage samplePayload 42
      = [{ id := "x", title := "", content := "", createdAt := 42, updatedAt := 42 },
         { id := "y", title := "T", content := "", createdAt := 42, updatedAt := 5 }] := by
  constructor
  · exact (c1_load_sanitizes 42).2.2.1 (.jnum 7) (fun xs h => JVal.noConfusion h)
  · exact ((c1_load_sanitizes 42).2.2.2
      [.jobj [("id", .jstr "x")],
       .jobj [("foo", .jnum 1)],
       .jobj [("id", .jstr "y"), ("title", .jstr "T"), ("updatedAt", .jnum 5)]]).trans
      (by decide)

/-- If both timestamps of a record are number-typed, its sanitization
does not consult the clock. -/
theorem sanitizeRecord_congr (v : JVal) (t1 t2 : Int)
    (hwt : wellTimestamped v = true) :
    sanitizeRecord v t1 = sanitizeRecord v t2 := by
  simp only [wellTimestamped, Bool.and_eq_true] at hwt
  obtain ⟨h1, h2⟩ := hwt
  obtain ⟨k1, hk1⟩ : ∃ k, v.getField "createdAt" = some (.jnum k) := by
    cases hcf : v.getField "createdAt" with
    | none => rw [hcf] at h1; exact Bool.noConfusion h1
    | some w =>
      rw [hcf] at h1
      cases w with
      | jnum k => exact ⟨k, rfl⟩
      | jnull => exact Bool.noConfusion h1
      | jbool b => exact Bool.noConfusion h1
      | jstr str => exact Bool.noConfusion h1
      | jarr l => exact Bool.noConfusion h1
      | jobj l => exact Bool.noConfusion h1
  obtain ⟨k2, hk2⟩ : ∃ k, v.getField "updatedAt" = some (.jnum k) := by
    cases huf : v.getField "updatedAt" with
    | none => rw [huf] at h2; exact Bool.noConfusion h2
    | some w =>
      rw [huf] at h2
      cases w with
      | jnum k => exact ⟨k, rfl⟩
      | jnull => exact Bool.noConfusion h2
      | jbool b => exact Bool.noConfusion h2
      | jstr str => exact Bool.noConfusion h2
      | jarr l => exact Bool.noConfusion h2
      | jobj l => exact Bool.noConfusion h2
  simp [sanitizeRecord, hk1, hk2]

/-- C9 counterexample: a stored record with a string id but no
timestamps is stamped with the clock value of each loadFromStorage
call, so two calls with no intervening write yield different lists
when the clock has advanced — contrary to the claim. -/
theorem c9_cex :
    loadFromStorage (.parsed (.jarr [.jobj [("id", .jstr "x")]])) 100
      ≠ loadFromStorage (.parsed (.jarr [.jobj [("id", .jstr "x")]])) 200 := by
  decide

/-- C9 (amended): two loadFromStorage calls with no intervening write
yield identical sanitized lists provided every record that is kept has
number-typed createdAt and updatedAt; a kept record missing a numeric
timestamp is stamped with each call's current time, so the results can
differ when the clock advances between the calls. -/
theorem c9_load_idempotent (p : Payload) (t1 t2 : Int)
    (h : ∀ xs, p = .parsed (.jarr xs) →
      ∀ v ∈ xs, keepRecord v = true → wellTimestamped v = true) :
    loadFromStorage p t1 = loadFromStorage p t2 := by
  cases p with
  | missing => rfl
  | malformed => rfl
  | parsed v =>
    cases v with
    | jarr xs =>
      show (xs.filter keepRecord).map (fun v => sanitizeRecord v t1)
          = (xs.filter keepRecord).map (fun v => sanitizeRecord v t2)
      apply List.map_congr_left
      intro v hv
      have hmem := List.mem_filter.mp hv
      exact sanitizeRecord_congr v t1 t2 (h xs rfl v hmem.1 hmem.2)
    | jnull => rfl
    | jbool b => rfl
    | jnum n => rfl
    | jstr str => rfl
    | jobj fs => rfl

theorem c9_witness :
    loadFromStorage (.parsed (.jarr
        [.jobj [("id", .jstr "w"), ("createdAt", .jnum 1), ("updatedAt", .jnum 2)]])) 100
      = loadFromStorage (.parsed (.jarr
        [.jobj [("id", .jstr "w"), ("createdAt", .jnum 1), ("updatedAt", .jnum 2)]])) 200 := by
  apply c9_load_idempotent
  intro xs hxs
  injection hxs with hxs
  injection hxs with hxs
  subst hxs
  decide

/-- C5: in every state reachable by any sequence of create, update
(save), delete, open and load operations, the list presented to
consumers (the collection as the render sorts it in place) is sorted
by updatedAt descending: every adjacent pair is non-increasing in
updatedAt. -/
theorem c5_view_sorted {s : AppState} (hs : Reachable s) :
    s.notes.Chain' (fun a b => b.updatedAt ≤ a.updatedAt) := by
  have h : s.notes.Pairwise (fun a b => b.updatedAt ≤ a.updatedAt) := by
    refine (reachable_sorted hs).imp ?_
    intro a b hab
    simpa [noteLe] using hab
  exact h.chain'

theorem c5_witness :
    (stepOp (initApp samplePayload 42) (Op.create "n" 50)).notes.Chain'
      (fun a b => b.updatedAt ≤ a.updatedAt) :=
  c5_view_sorted (Reachable.next (Reachable.start samplePayload 42) (Op.create "n" 50))

/-- C2: after a confirmed delete of the active note from a sorted
collection with distinct ids: when the collection had size 1 the
active selection becomes none; when it had size greater than 1 the
active selection becomes the id of a surviving note whose updatedAt is
greatest among the survivors (the first survivor in sorted order). -/
theorem c2_delete_reselects (s : AppState) (note : Note)
    (hsorted : s.notes.Pairwise (fun a b => noteLe a b))
    (hnodup : (s.notes.map Note.id).Nodup)
    (hactive : getActiveNote s = some note) :
    (s.notes.length = 1 → (deleteActiveNote s true).activeNoteId = none) ∧
    (1 < s.notes.length →
      ∃ m, (deleteActiveNote s true).activeNoteId = some m.id ∧
        m ∈ s.notes ∧ m.id ≠ note.id ∧
        ∀ n ∈ s.notes, n.id ≠ note.id → n.updatedAt ≤ m.updatedAt) := by
  obtain ⟨aid, hA, hfind⟩ : ∃ aid, s.activeNoteId = some aid ∧
      s.notes.find? (fun n => n.id == aid) = some note := by
    unfold getActiveNote at hactive
    cases hA : s.activeNoteId with
    | none => rw [hA] at hactive; exact Option.noConfusion hactive
    | some aid =>
      rw [hA] at hactive
      exact ⟨aid, rfl, hactive⟩
  have hmem : note ∈ s.notes := List.mem_of_find?_eq_some hfind
  have hid : note.id = aid := by
    have := List.find?_some hfind
    simpa using this
  have hactive2 : getActiveNote s = some note := by
    unfold getActiveNote
    rw [hA]
    exact hfind
  have hAid : (deleteActiveNote s true).activeNoteId
      = (s.notes.filter (fun n => n.id != aid)).head?.map Note.id := by
    unfold deleteActiveNote
    rw [hactive2, hA]
    rfl
  constructor
  · intro hlen
    rw [hAid]
    have hnil : s.notes.filter (fun n => n.id != aid) = [] := by
      cases hs0 : s.notes with
      | nil => rfl
      | cons x t =>
        cases t with
        | nil =>
          rw [hs0] at hmem
          have hx : note = x := by simpa using hmem
          rw [← hx]
          simp [hid]
        | cons y t2 =>
          rw [hs0] at hlen
          simp at hlen
    rw [hnil]
    rfl
  · intro hlen
    obtain ⟨m, rest, hsurv⟩ : ∃ m rest,
        s.notes.filter (fun n => n.id != aid) = m :: rest := by
      cases hsv : s.notes.filter (fun n => n.id != aid) with
      | cons m rest => exact ⟨m, rest, rfl⟩
      | nil =>
        exfalso
        have hall : ∀ n ∈ s.notes, n.id = aid := by
          intro n hn
          have := List.filter_eq_nil_iff.mp hsv n hn
          simpa using this
        cases hs0 : s.notes with
        | nil => rw [hs0] at hlen; simp at hlen
        | cons x t =>
          cases t with
          | nil => rw [hs0] at hlen; simp at hlen
          | cons y t2 =>
            rw [hs0] at hnodup hall
            have hx : x.id = aid := hall x (by simp)
            have hy : y.id = aid := hall y (by simp)
            simp only [List.map_cons, List.nodup_cons, List.mem_cons] at hnodup
            exact hnodup.1 (Or.inl (hx.trans hy.symm))
    have hmemSurv : m ∈ s.notes.filter (fun n => n.id != aid) := by
      rw [hsurv]
      exact List.mem_cons_self m rest
    refine ⟨m, ?_, ?_, ?_, ?_⟩
    · rw [hAid, hsurv]
      rfl
    · exact (List.mem_filter.mp hmemSurv).1
    · have := (List.mem_filter.mp hmemSurv).2
      rw [hid]
      simpa using this
    · intro n hn hne
      have hnf : n ∈ s.notes.filter (fun n => n.id != aid) := by
        rw [List.mem_filter]
        refine ⟨hn, ?_⟩
        rw [hid] at hne
        simpa using hne
      rw [hsurv] at hnf
      have hps : (s.notes.filter (fun n => n.id != aid)).Pairwise
          (fun a b => noteLe a b) := hsorted.filter _
      rw [hsurv] at hps
      rcases List.mem_cons.mp hnf with h | h
      · rw [h]
      · have := (List.pairwise_cons.mp hps).1 n h
        simpa [noteLe] using this

theorem c2_witness :
    ∃ m, (deleteActiveNote sampleState true).activeNoteId = some m.id ∧
      m ∈ sampleState.notes ∧ m.id ≠ note_a.id ∧
      ∀ n ∈ sampleState.notes, n.id ≠ note_a.id → n.updatedAt ≤ m.updatedAt :=
  (c2_delete_reselects sampleState note_a (by decide) (by decide) (by decide)).2
    (by decide)

/-! ## Lemmas about in-place update of the first matching note -/

theorem length_updateFirst (aid : String) (f : Note → Note) (ns : List Note) :
    (updateFirst aid f ns).length = ns.length := by
  induction ns with
  | nil => rfl
  | cons x t ih =>
    by_cases hx : (x.id == aid) = true
    · rw [updateFirst, if_pos hx]
      rfl
    · rw [updateFirst, if_neg hx]
      simpa using ih

theorem mem_updateFirst_of_ne (aid : String) (f : Note → Note) (ns : List Note)
    (n : Note) (hn : n ∈ ns) (hne : n.id ≠ aid) :
    n ∈ updateFirst aid f ns := by
  induction ns with
  | nil => exact absurd hn (List.not_mem_nil n)
  | cons x t ih =>
    by_cases hx : (x.id == aid) = true
    · rw [updateFirst, if_pos hx]
      rcases List.mem_cons.mp hn with h | h
      · rw [h] at hne
        exact absurd (by simpa using hx) hne
      · exact List.mem_cons_of_mem _ h
    · rw [updateFirst, if_neg hx]
      rcases List.mem_cons.mp hn with h | h
      · rw [h]
        exact List.mem_cons_self _ _
      · exact List.mem_cons_of_mem _ (ih h)

theorem mem_of_mem_updateFirst (aid : String) (f : Note → Note)
    (hf : ∀ x, (f x).id = x.id) :
    ∀ (ns : List Note) (n : Note), n ∈ updateFirst aid f ns → n.id ≠ aid → n ∈ ns
  | [], n, hn, _ => absurd hn (List.not_mem_nil n)
  | x :: t, n, hn, hne => by
    by_cases hx : (x.id == aid) = true
    · rw [updateFirst, if_pos hx] at hn
      rcases List.mem_cons.mp hn with h | h
      · exfalso
        apply hne
        rw [h, hf x]
        simpa using hx
      · exact List.mem_cons_of_mem _ h
    · rw [updateFirst, if_neg hx] at hn
      rcases List.mem_cons.mp hn with h | h
      · rw [h]
        exact List.mem_cons_self _ _
      · exact List.mem_cons_of_mem _ (mem_of_mem_updateFirst aid f hf t n h hne)

theorem updated_mem_updateFirst (aid : String) (f : Note → Note) :
    ∀ (ns : List Note) (old : Note), old ∈ ns → old.id = aid →
      (ns.map Note.id).Nodup → f old ∈ updateFirst aid f ns
  | [], old, hmem, _, _ => absurd hmem (List.not_mem_nil old)
  | x :: t, old, hmem, hid, hnodup => by
    by_cases hx : (x.id == aid) = true
    · rw [updateFirst, if_pos hx]
      have hox : old = x := by
        rcases List.mem_cons.mp hmem with h | h
        · exact h
        · exfalso
          have hxid : x.id = aid := by simpa using hx
          have : x.id ∈ t.map Note.id := by
            rw [hxid, ← hid]
            exact List.mem_map_of_mem Note.id h
          simp only [List.map_cons, List.nodup_cons] at hnodup
          exact hnodup.1 this
      rw [hox]
      exact List.mem_cons_self _ _
    · rw [updateFirst, if_neg hx]
      have hox : old ≠ x := by
        intro h
        rw [h] at hid
        exact hx (by simpa using hid)
      have hot : old ∈ t := by
        rcases List.mem_cons.mp hmem with h | h
        · exact absurd h hox
        · exact h
      simp only [List.map_cons, List.nodup_cons] at hnodup
      exact List.mem_cons_of_mem _
        (updated_mem_updateFirst aid f t old hot hid hnodup.2)

/-- C6 counterexample: with the active id "z" absent from the
collection, saveActiveNote performs no mutation but the call evaluates
to undefined (the early return at src/scripted.js:204 is bare) — the
same value a successful save with the id present returns — so no
failure indicator is returned, contrary to the claim. -/
theorem c6_cex :
    (∀ n ∈ staleState.notes, n.id ≠ "z") ∧
    staleState.activeNoteId = some "z" ∧
    saveActiveNote staleState "T" "C" 99 = staleState ∧
    saveActiveNoteRet staleState "T" "C" 99
      = saveActiveNoteRet sampleState "T" "C" 99 :=
  ⟨by decide, rfl, rfl, rfl⟩

/-- C6 (amended): update (saveActiveNote, keyed to the active id) is a
no-op when the active id is not present in the collection, and the
call returns undefined on the absent path just as on the success path,
so failure is signalled only by the absence of mutation; when the id
is present it sets exactly that note's title and content, stamps its
updatedAt to the current time, keeps its id and createdAt, leaves
every other note unchanged, keeps the selection, and persists the
updated collection (the blob holds exactly the updated collection,
which the render then re-sorts in memory). -/
theorem c6_update (s : AppState) (aid titleVal contentVal : String) (now : Int)
    (hA : s.activeNoteId = some aid) :
    saveActiveNoteRet s titleVal contentVal now = JSValue.undefined ∧
    ((∀ n ∈ s.notes, n.id ≠ aid) → saveActiveNote s titleVal contentVal now = s) ∧
    (∀ old ∈ s.notes, old.id = aid → (s.notes.map Note.id).Nodup →
      (saveActiveNote s titleVal contentVal now).activeNoteId = some aid ∧
      { old with title := titleVal, content := contentVal, updatedAt := now }
          ∈ (saveActiveNote s titleVal contentVal now).notes ∧
      (∀ n ∈ s.notes, n.id ≠ aid → n ∈ (saveActiveNote s titleVal contentVal now).notes) ∧
      (∀ n ∈ (saveActiveNote s titleVal contentVal now).notes, n.id ≠ aid → n ∈ s.notes) ∧
      (saveActiveNote s titleVal contentVal now).notes.length = s.notes.length ∧
      (saveActiveNote s titleVal contentVal now).storage
        = encodeNotes (updateFirst aid
            (fun n => { n with title := titleVal, content := contentVal, updatedAt := now })
            s.notes)) := by
  refine ⟨rfl, ?_, ?_⟩
  · intro hnone
    have hfind : s.notes.find? (fun n => n.id == aid) = none := by
      rw [List.find?_eq_none]
      intro x hx
      simpa using hnone x hx
    simp [saveActiveNote, hA, hfind]
  · intro old hmem hid hnodup
    have hfindSome : (s.notes.find? (fun n => n.id == aid)).isSome = true := by
      rw [List.find?_isSome]
      exact ⟨old, hmem, by simpa using hid⟩
    have hres : saveActiveNote s titleVal contentVal now
        = renderNotesList (saveToStorage
          { s with notes := (updateFirst aid
              (fun n => { n with title := titleVal, content := contentVal, updatedAt := now })
              s.notes) }) := by
      simp [saveActiveNote, hA, hfindSome]
    rw [hres]
    refine ⟨hA, ?_, ?_, ?_, ?_, rfl⟩
    · show _ ∈ (updateFirst aid
          (fun n => { n with title := titleVal, content := contentVal, updatedAt := now })
          s.notes).mergeSort noteLe
      rw [List.mem_mergeSort]
      exact updated_mem_updateFirst aid _ s.notes old hmem hid hnodup
    · intro n hn hne
      show n ∈ (updateFirst aid
          (fun n => { n with title := titleVal, content := contentVal, updatedAt := now })
          s.notes).mergeSort noteLe
      rw [List.mem_mergeSort]
      exact mem_updateFirst_of_ne aid _ s.notes n hn hne
    · intro n hn hne
      replace hn : n ∈ (updateFirst aid
          (fun n => { n with title := titleVal, content := contentVal, updatedAt := now })
          s.notes).mergeSort noteLe := hn
      rw [List.mem_mergeSort] at hn
      exact mem_of_mem_updateFirst aid
        (fun n => { n with title := titleVal, content := contentVal, updatedAt := now })
        (fun x => rfl) s.notes n hn hne
    · show ((updateFirst aid
          (fun n => { n with title := titleVal, content := contentVal, updatedAt := now })
          s.notes).mergeSort noteLe).length = s.notes.length
      rw [List.length_mergeSort]
      exact length_updateFirst aid _ s.notes

theorem c6_witness :
    (saveActiveNote sampleState "T" "C" 99).activeNoteId = some "a" ∧
    { id := "a", title := "T", content := "C", createdAt := 10, updatedAt := 99 }
      ∈ (saveActiveNote sampleState "T" "C" 99).notes :=
  have h := (c6_update sampleState "a" "T" "C" 99 rfl).2.2 note_a (by decide) rfl (by decide)
  ⟨h.1, h.2.1⟩

/-- The effect of a confirmed delete of the active note. -/
theorem deleteActiveNote_confirmed (s : AppState) (note : Note) (aid : String)
    (hA : s.activeNoteId = some aid)
    (hfind : s.notes.find? (fun n => n.id == aid) = some note) :
    deleteActiveNote s true
      = renderNotesList (saveToStorage
        { s with notes := (s.notes.filter (fun n => n.id != aid)),
                 activeNoteId := (s.notes.filter (fun n => n.id != aid)).head?.map Note.id }) := by
  have hactive2 : getActiveNote s = some note := by
    unfold getActiveNote
    rw [hA]
    exact hfind
  unfold deleteActiveNote
  rw [hactive2, hA]
  rfl

/-- C7 counterexample: the active note's id is present in the
collection and a delete is requested, but the confirmation collaborator
declines, so the note is not removed — the claim's unconditional
"when id is present it removes that note" fails on the code, whose
delete is gated by the confirm dialog. -/
theorem c7_cex :
    getActiveNote sampleState = some note_a ∧
    note_a ∈ (deleteActiveNote sampleState false).notes :=
  ⟨by decide, by decide⟩

/-- C7 (amended): deleteActiveNote is a no-op when no note with the
active id is present or when the confirmation collaborator declines;
when the active note is present and the deletion is confirmed, it
removes every note bearing the active id from the in-memory
collection, keeps every other note, persists the survivors, and
recomputes the active selection, which is null exactly when the
collection is now empty (the function returns no value; the emptiness
outcome is observable through the cleared selection). -/
theorem c7_delete (s : AppState) :
    (getActiveNote s = none → ∀ ok, deleteActiveNote s ok = s) ∧
    (deleteActiveNote s false = s) ∧
    (∀ note, getActiveNote s = some note →
      (deleteActiveNote s true).notes.Perm
          (s.notes.filter (fun n => n.id != note.id)) ∧
      (∀ n ∈ (deleteActiveNote s true).notes, n.id ≠ note.id) ∧
      (∀ n ∈ s.notes, n.id ≠ note.id → n ∈ (deleteActiveNote s true).notes) ∧
      (deleteActiveNote s true).storage
          = encodeNotes (s.notes.filter (fun n => n.id != note.id)) ∧
      ((deleteActiveNote s true).activeNoteId = none ↔
        (deleteActiveNote s true).notes = [])) := by
  refine ⟨?_, ?_, ?_⟩
  · intro hnone ok
    unfold deleteActiveNote
    rw [hnone]
    rfl
  · unfold deleteActiveNote
    split
    · rfl
    · rfl
  · intro note hactive
    obtain ⟨aid, hA, hfind⟩ : ∃ aid, s.activeNoteId = some aid ∧
        s.notes.find? (fun n => n.id == aid) = some note := by
      unfold getActiveNote at hactive
      cases hA : s.activeNoteId with
      | none => rw [hA] at hactive; exact Option.noConfusion hactive
      | some aid =>
        rw [hA] at hactive
        exact ⟨aid, rfl, hactive⟩
    have hid : note.id = aid := by
      have := List.find?_some hfind
      simpa using this
    have hres := deleteActiveNote_confirmed s note aid hA hfind
    rw [hres, hid]
    refine ⟨?_, ?_, ?_, rfl, ?_⟩
    · exact List.mergeSort_perm _ _
    · intro n hn
      replace hn : n ∈ (s.notes.filter (fun n => n.id != aid)).mergeSort noteLe := hn
      rw [List.mem_mergeSort] at hn
      have := (List.mem_filter.mp hn).2
      simpa using this
    · intro n hn hne
      show n ∈ (s.notes.filter (fun n => n.id != aid)).mergeSort noteLe
      rw [List.mem_mergeSort, List.mem_filter]
      exact ⟨hn, by simpa using hne⟩
    · show (s.notes.filter (fun n => n.id != aid)).head?.map Note.id = none ↔
        (s.notes.filter (fun n => n.id != aid)).mergeSort noteLe = []
      constructor
      · intro h
        have hnil : s.notes.filter (fun n => n.id != aid) = [] := by
          cases hf : s.notes.filter (fun n => n.id != aid) with
          | nil => rfl
          | cons x t =>
            rw [hf] at h
            exact Option.noConfusion h
        rw [hnil]
        exact List.mergeSort_nil
      · intro h
        have hnil : s.notes.filter (fun n => n.id != aid) = [] := by
          have hlen := congrArg List.length h
          rw [List.length_mergeSort] at hlen
          exact List.length_eq_zero.mp hlen
        rw [hnil]
        rfl

theorem c7_witness :
    (deleteActiveNote sampleState true).storage
        = encodeNotes (sampleState.notes.filter (fun n => n.id != note_a.id)) ∧
    ((deleteActiveNote sampleState true).activeNoteId = none ↔
      (deleteActiveNote sampleState true).notes = []) :=
  have h := (c7_delete sampleState).2.2 note_a (by decide)
  ⟨h.2.2.2.1, h.2.2.2.2⟩

end NotesApp
